import Mathlib

/-!
Verification of the VantagePoint metadata API (src/main.py) against its
specification. The Python module is shallowly embedded: Python ints are ℤ
(or ℕ where the web layer guarantees nonnegativity), floats are ℚ, the
process-wide TTL cache is an explicit map passed through each handler, and
wall-clock readings (`time.time()`) are explicit `now` arguments. The
Mersenne-Twister draws of the `random` module are modelled by oracle
functions of the seed and the draw counter, universally quantified in the
theorems, because `random.seed(market_id)` makes every draw a deterministic
function of the seed and of the position of the draw in the call.
-/

namespace VantagePoint

/-! ## Python string helpers

`str.lower` / `str.upper` on the ASCII data appearing here coincide with
per-character case mapping; the library String.toLower does not reduce in the
kernel, so the maps are defined directly on the character list. -/

def pyLower (s : String) : String := ⟨s.data.map Char.toLower⟩

def pyUpper (s : String) : String := ⟨s.data.map Char.toUpper⟩

/-- Model of `list.isPrefixOf`, written out so it reduces by `rfl`. -/
def leadsList : List Char → List Char → Bool
  | [], _ => true
  | _ :: _, [] => false
  | a :: as, b :: bs => a == b && leadsList as bs

/-- The Python substring test (the operator in) for strings. -/
def containsSub (hay needle : List Char) : Bool :=
  match hay with
  | [] => needle.isEmpty
  | _ :: t => leadsList needle hay || containsSub t needle

/-- Python `in` on `String`. -/
def pyIn (needle hay : String) : Bool := containsSub hay.data needle.data

/-- The single-quote character used by `str` on a Python list of strings. -/
def squote : String := String.singleton (Char.ofNat 39)

/-- Python `str` applied to a list of strings: brackets, comma-space
separators, each element single-quoted. -/
def pyStrList (ts : List String) : String :=
  "[" ++ String.intercalate ", " (ts.map (fun t => squote ++ t ++ squote)) ++ "]"

/-- Python `str` / f-string interpolation of an `Optional[str]`. -/
def pyStrOpt : Option String → String
  | none => "None"
  | some s => s

/-- Python truthiness of an `Optional[str]` (`None` and `""` are falsy). -/
def optTruthy : Option String → Bool
  | none => false
  | some s => !s.isEmpty

/-! ## Data model (src/main.py, Pydantic models and mock dataset) -/

/-- One entry of `MOCK_MARKETS`: metadata merged with the embedded stats. -/
structure Market where
  market_id : ℤ
  question : String
  description : String
  category : String
  image_url : String
  tags : List String
  source_url : Option String
  resolution_rules : String
  yes_price_bps : ℤ
  no_price_bps : ℤ
  total_volume_usd : ℚ
  volume_24h_usd : ℚ
  total_liquidity : ℚ
  num_traders : ℤ
deriving DecidableEq

/-- The `MarketSearchResult` response model. -/
structure MarketSearchResult where
  markets : List Market
  total_count : ℕ
  page : ℕ
  page_size : ℕ
deriving DecidableEq

/-- The record stored by `POST /markets` (the `new_meta` dict). -/
structure PendingMeta where
  metadata_id : String
  question : String
  description : String
  category : String
  image_url : String
  tags : List String
  source_url : Option String
  resolution_rules : String
  created_at : ℚ
deriving DecidableEq

/-- Body of `POST /markets` (`CreateMarketRequest`). -/
structure CreateMarketRequest where
  question : String
  description : String
  category : String
  image_ipfs_hash : Option String
  image_url : Option String
  tags : List String
  source_url : Option String
  resolution_rules : String
deriving DecidableEq

/-- One synthesized trade record of the per-market trades route. -/
structure TradeRec where
  market_id : ℤ
  trader : String
  is_buy_yes : Bool
  usdc_in : ℚ
  shares_out : ℚ
  price_bps : ℤ
  tx_hash : String
  timestamp : ℚ
deriving DecidableEq

/-- One OHLCV candle of the price-history route. `open` is a Lean
keyword, hence the field name `open_` (the Python code itself uses the local
variable `open_` for the same reason). -/
structure Candle where
  time : ℤ
  open_ : ℤ
  high : ℤ
  low : ℤ
  close : ℤ
  volume : ℚ
deriving DecidableEq

/-- Response of the price-history route. -/
structure PriceHistory where
  market_id : ℤ
  interval : String
  candles : List Candle
deriving DecidableEq

/-- An `HTTPException`: status code and detail message. -/
structure HttpError where
  status : ℕ
  detail : String
deriving DecidableEq

/-- The `MOCK_MARKETS` seed list, copied field by field from src/main.py. -/
def MOCK_MARKETS : List Market :=
  [ { market_id := 1
    , question := "Will the Fed cut rates by 50bps before June 2025?"
    , description := "Resolves YES if the Federal Reserve announces a 50 basis point or greater rate cut before June 30, 2025. Resolution source: Fed official press releases."
    , category := "POLITICS"
    , image_url := "https://images.unsplash.com/photo-1611974789855-9c2a0a7236a3?w=400"
    , tags := ["fed", "rates", "macro", "finance"]
    , source_url := some "https://federalreserve.gov"
    , resolution_rules := "Resolves YES if FOMC minutes confirm ≥50bps cut before June 30 2025."
    , yes_price_bps := 6840
    , no_price_bps := 3160
    , total_volume_usd := 2450000
    , volume_24h_usd := 185000
    , total_liquidity := 890000
    , num_traders := 1247 }
  , { market_id := 2
    , question := "Will Bitcoin exceed $150K before end of 2025?"
    , description := "Resolves YES if BTC/USD spot price on Coinbase Pro crosses $150,000 at any point before Dec 31, 2025 23:59 UTC."
    , category := "CRYPTO"
    , image_url := "https://images.unsplash.com/photo-1518546305927-5a555bb7020d?w=400"
    , tags := ["bitcoin", "btc", "crypto", "price"]
    , source_url := some "https://coinbase.com"
    , resolution_rules := "Resolves YES if BTC/USD on Coinbase Pro >= $150,000 before EOY 2025."
    , yes_price_bps := 4230
    , no_price_bps := 5770
    , total_volume_usd := 8920000
    , volume_24h_usd := 720000
    , total_liquidity := 3100000
    , num_traders := 5832 }
  , { market_id := 3
    , question := "Will the Kansas City Chiefs win Super Bowl LX?"
    , description := "Resolves YES if the Kansas City Chiefs win Super Bowl LX (Feb 2026). Resolution: official NFL result."
    , category := "SPORTS"
    , image_url := "https://images.unsplash.com/photo-1566577739112-5180d4bf9390?w=400"
    , tags := ["nfl", "superbowl", "chiefs", "sports"]
    , source_url := some "https://nfl.com"
    , resolution_rules := "Resolves YES if KC Chiefs are Super Bowl LX champions."
    , yes_price_bps := 3100
    , no_price_bps := 6900
    , total_volume_usd := 1230000
    , volume_24h_usd := 95000
    , total_liquidity := 450000
    , num_traders := 892 }
  , { market_id := 4
    , question := "Will GPT-5 be released before Claude 4?"
    , description := "Resolves YES if OpenAI officially releases GPT-5 to the public before Anthropic releases Claude 4 (successor to Claude 3). Based on official announcements."
    , category := "CULTURE"
    , image_url := "https://images.unsplash.com/photo-1677442135703-1787eea5ce01?w=400"
    , tags := ["ai", "openai", "anthropic", "llm"]
    , source_url := some "https://openai.com"
    , resolution_rules := "Resolves YES if GPT-5 public release precedes Claude 4 public release."
    , yes_price_bps := 5500
    , no_price_bps := 4500
    , total_volume_usd := 680000
    , volume_24h_usd := 48000
    , total_liquidity := 220000
    , num_traders := 418 } ]

/-! ## The TTL cache (src/main.py lines 38-48) -/

/-- `CACHE_TTL_SECONDS = int(os.getenv("CACHE_TTL", "60"))` with its default. -/
def CACHE_TTL_SECONDS : ℚ := 60

/-- The values a handler may store in the cache. `none` is the Python `None`,
which `cache_get` also returns on a miss. -/
inductive Val where
  | none
  | vsearch (r : MarketSearchResult)
  | vmarket (m : Market)
  | vmarkets (l : List Market)
  | vmeta (p : PendingMeta)
deriving DecidableEq

/-- Python truthiness of a cached value: `None` is falsy, a list is truthy
iff nonempty, a (nonempty) dict and a Pydantic model instance are truthy. -/
def pyTruthy : Val → Bool
  | Val.none => false
  | Val.vsearch _ => true
  | Val.vmarket _ => true
  | Val.vmarkets l => !l.isEmpty
  | Val.vmeta _ => true

/-- The `_cache` dict: key to (stored wall-clock time, value). -/
def Cache : Type := String → Option (ℚ × Val)

/-- The empty cache a fresh process starts with. -/
def emptyCache : Cache := fun _ => Option.none

/-- `cache_get`: the stored value if present and younger than the TTL,
otherwise Python `None`. -/
def cache_get (c : Cache) (key : String) (now : ℚ) : Val :=
  match c key with
  | some (ts, val) => if now - ts < CACHE_TTL_SECONDS then val else Val.none
  | Option.none => Val.none

/-- `cache_set`: unconditional overwrite with the current time. -/
def cache_set (c : Cache) (key : String) (v : Val) (now : ℚ) : Cache :=
  fun k => if k = key then some (now, v) else c k

/-! ## GET /markets (list_markets, src/main.py lines 232-272) -/

/-- The f-string cache key: markets, category, sort_by, page, page_size and
search joined with colons. -/
def marketsKey (category : Option String) (sort_by : String) (page page_size : ℕ)
    (search : Option String) : String :=
  "markets:" ++ pyStrOpt category ++ ":" ++ sort_by ++ ":" ++ toString page ++ ":"
    ++ toString page_size ++ ":" ++ pyStrOpt search

/-- The `if category:` filter (skipped when `category` is `None` or empty). -/
def filterCategory (category : Option String) (ms : List Market) : List Market :=
  if optTruthy category then
    ms.filter (fun m => pyUpper m.category == pyUpper (pyStrOpt category))
  else ms

/-- The `if search:` filter: case-insensitive substring of the question or of
`str(tags)` (skipped when `search` is `None` or empty). -/
def filterSearch (search : Option String) (ms : List Market) : List Market :=
  if optTruthy search then
    ms.filter (fun m =>
      pyIn (pyLower (pyStrOpt search)) (pyLower m.question)
        || pyIn (pyLower (pyStrOpt search)) (pyLower (pyStrList m.tags)))
  else ms

/-- The seed list after both filters, in seed order. -/
def filteredMarkets (category search : Option String) : List Market :=
  filterSearch search (filterCategory category MOCK_MARKETS)

/-- The numeric field selected by `sort_map.get(sort_by, sort_map["volume_24h"])`;
an unrecognized `sort_by` falls back to 24h volume. -/
def sortKey (sort_by : String) (m : Market) : ℚ :=
  if sort_by = "volume_24h" then m.volume_24h_usd
  else if sort_by = "total_volume" then m.total_volume_usd
  else if sort_by = "num_traders" then (m.num_traders : ℚ)
  else if sort_by = "yes_price" then (m.yes_price_bps : ℚ)
  else m.volume_24h_usd

/-- Comparison handed to the stable sort: `a` may precede `b` iff its key is
at least the key of `b` (Python list.sort with a key and reverse=True). -/
def sortLe (sort_by : String) (a b : Market) : Bool :=
  decide (sortKey sort_by b ≤ sortKey sort_by a)

/-- Filter, then stable descending sort. -/
def sortedMarkets (category search : Option String) (sort_by : String) : List Market :=
  (filteredMarkets category search).mergeSort (sortLe sort_by)

/-- The cache-miss computation of `list_markets`: filter, sort, paginate
(`markets[(page-1)*page_size : page*page_size]`), wrap. -/
def list_markets_compute (category : Option String) (sort_by : String)
    (page page_size : ℕ) (search : Option String) : MarketSearchResult :=
  let ms := sortedMarkets category search sort_by
  { markets := (ms.drop ((page - 1) * page_size)).take page_size
  , total_count := ms.length
  , page := page
  , page_size := page_size }

/-- The full handler: return any fresh truthy cached value as-is, otherwise
compute, cache and return. -/
def list_markets (c : Cache) (now : ℚ) (category : Option String) (sort_by : String)
    (page page_size : ℕ) (search : Option String) : Val × Cache :=
  let key := marketsKey category sort_by page page_size search
  let cached := cache_get c key now
  if pyTruthy cached then (cached, c)
  else
    let result := Val.vsearch (list_markets_compute category sort_by page page_size search)
    (result, cache_set c key result now)

/-! ## The single-market route (get_market, src/main.py lines 292-304) -/

/-- The single-market handler: cache probe, linear scan of the seed list by
id (`next(...)`), 404 on a miss. -/
def get_market (c : Cache) (now : ℚ) (market_id : ℤ) : Except HttpError Val × Cache :=
  let key := "market:" ++ toString market_id
  let cached := cache_get c key now
  if pyTruthy cached then (Except.ok cached, c)
  else
    match MOCK_MARKETS.find? (fun m => m.market_id == market_id) with
    | Option.none =>
        (Except.error ⟨404, "Market " ++ toString market_id ++ " not found"⟩, c)
    | some m => (Except.ok (Val.vmarket m), cache_set c key (Val.vmarket m) now)

/-! ## The per-market trades route (src/main.py lines 307-328) -/

/-- The mock transaction hash: 0x followed by 64 copies of the letter a. -/
def mockTxHash : String := "0x" ++ String.mk (List.replicate 64 'a')

/-- The trades handler: `min(limit, 20)` constant-field records, record `i`
timestamped `now - i*30`; `before_ts` is accepted and ignored. -/
def get_market_trades (market_id : ℤ) (limit : ℤ) (before_ts : Option ℚ)
    (now : ℚ) : List TradeRec :=
  (List.range (min limit 20).toNat).map (fun (i : ℕ) =>
    { market_id := market_id
    , trader := "0xabc123..."
    , is_buy_yes := true
    , usdc_in := 5000
    , shares_out := 7320.5
    , price_bps := 6840
    , tx_hash := mockTxHash
    , timestamp := now - (i : ℚ) * 30 })

/-! ## The price-history route (src/main.py lines 331-357) -/

/-- `intervals.get(interval, 3600)`: the step-size table with its fallback. -/
def intervalStep (interval : String) : ℤ :=
  if interval = "1m" then 60
  else if interval = "5m" then 300
  else if interval = "15m" then 900
  else if interval = "1h" then 3600
  else if interval = "4h" then 14400
  else if interval = "1d" then 86400
  else 3600

/-- The candle loop `for i in range(limit, 0, -1)`. `randI sd k a b` is the
value of the k-th draw of the `random` module after `random.seed(sd)` when
that draw is `random.randint(a, b)`; `uniF` likewise for `random.uniform`.
Each candle consumes four draws in the order randint, randint, randint,
uniform, so the counter advances by 4 per iteration. -/
def genCandles (randI : ℤ → ℕ → ℤ → ℤ → ℤ) (uniF : ℤ → ℕ → ℚ → ℚ → ℚ)
    (sd : ℤ) (now step : ℤ) : ℕ → ℤ → ℕ → List Candle
  | 0, _, _ => []
  | i + 1, price, ctr =>
      let delta := randI sd ctr (-200) 200
      let close := max 100 (min 9900 (price + delta))
      { time := now - (i + 1) * step
      , open_ := price
      , high := max price close + randI sd (ctr + 1) 0 100
      , low := min price close - randI sd (ctr + 2) 0 100
      , close := close
      , volume := uniF sd (ctr + 3) 10000 200000 }
        :: genCandles randI uniF sd now step i close (ctr + 4)

/-- The price-history handler: re-seed with the market id, start at price
5000, generate `limit` candles oldest-first. -/
def get_price_history (randI : ℤ → ℕ → ℤ → ℤ → ℤ) (uniF : ℤ → ℕ → ℚ → ℚ → ℚ)
    (market_id : ℤ) (interval : String) (limit : ℕ) (now : ℤ) : PriceHistory :=
  { market_id := market_id
  , interval := interval
  , candles := genCandles randI uniF market_id now (intervalStep interval) limit 5000 0 }

/-- A candle without its `time` field (open, high, low, close, volume). -/
def dropTime (c : Candle) : ℤ × ℤ × ℤ × ℤ × ℚ :=
  (c.open_, c.high, c.low, c.close, c.volume)

/-! ## POST /markets (create_market_metadata, src/main.py lines 360-384) -/

/-- `IPFS_GATEWAY` with its default. -/
def IPFS_GATEWAY : String := "https://cloudflare-ipfs.com/ipfs/"

/-- Python `or` on an `Optional[str]` and a string: the left operand if
truthy, otherwise the right operand. -/
def pyOrStr (a : Option String) (b : String) : String :=
  match a with
  | Option.none => b
  | some s => if s.isEmpty then b else s

/-- The expression
`req.image_url or f"{IPFS_GATEWAY}{req.image_ipfs_hash}" if req.image_ipfs_hash else ""`
as Python parses it: the conditional binds the whole `or`-expression, so the
`or` is evaluated only when `image_ipfs_hash` is truthy, and the whole thing
is `""` otherwise. -/
def composed_image_url (req : CreateMarketRequest) : String :=
  if optTruthy req.image_ipfs_hash then
    pyOrStr req.image_url (IPFS_GATEWAY ++ pyStrOpt req.image_ipfs_hash)
  else ""

/-- The `new_meta` record composed by the handler at wall-clock `now`. -/
def composed_meta (now : ℚ) (req : CreateMarketRequest) : PendingMeta :=
  { metadata_id := "vp-" ++ toString now.floor
  , question := req.question
  , description := req.description
  , category := req.category
  , image_url := composed_image_url req
  , tags := req.tags
  , source_url := req.source_url
  , resolution_rules := req.resolution_rules
  , created_at := now }

/-- The handler: compose the record, cache it under the pending_meta key,
return `(metadata_id, ipfs_uri)`. -/
def create_market_metadata (c : Cache) (now : ℚ) (req : CreateMarketRequest) :
    (String × String) × Cache :=
  let meta := composed_meta now req
  ( (meta.metadata_id, "ipfs://" ++ meta.metadata_id)
  , cache_set c ("pending_meta:" ++ meta.metadata_id) (Val.vmeta meta) now )

/-! ## Helper lemmas -/

theorem mock_markets_nodup : MOCK_MARKETS.Nodup :=
  List.Nodup.of_map Market.market_id (by decide)

theorem genCandles_map_dropTime (randI : ℤ → ℕ → ℤ → ℤ → ℤ)
    (uniF : ℤ → ℕ → ℚ → ℚ → ℚ) (sd step now1 now2 : ℤ) :
    ∀ (i : ℕ) (price : ℤ) (ctr : ℕ),
      (genCandles randI uniF sd now1 step i price ctr).map dropTime
        = (genCandles randI uniF sd now2 step i price ctr).map dropTime := by
  intro i
  induction i with
  | zero => intro price ctr; rfl
  | succ n ih => intro price ctr; simp [genCandles, dropTime, ih]

theorem pair_sublist_iff_indexOf {α : Type _} [DecidableEq α] :
    ∀ {l : List α}, l.Nodup → ∀ {a b : α}, a ∈ l → b ∈ l → a ≠ b →
      ([a, b].Sublist l ↔ List.indexOf a l < List.indexOf b l) := by
  intro l
  induction l with
  | nil => intro _ a b ha; exact absurd ha (List.not_mem_nil a)
  | cons c t ih =>
      intro hnd a b ha hb hab
      rcases List.nodup_cons.mp hnd with ⟨hct, hndt⟩
      by_cases hac : a = c
      · subst hac
        have hbt : b ∈ t := by
          rcases List.mem_cons.mp hb with h | h
          · exact absurd h.symm hab
          · exact h
        constructor
        · intro _
          rw [List.indexOf_cons_self, List.indexOf_cons_ne t hab]
          exact Nat.succ_pos _
        · intro _
          exact List.cons_sublist_cons.mpr (List.singleton_sublist.mpr hbt)
      · by_cases hbc : b = c
        · subst hbc
          constructor
          · intro hsub
            rcases List.sublist_cons_iff.mp hsub with h | ⟨r, hr, _⟩
            · exact absurd (h.subset (by simp)) hct
            · injection hr with h1 _
              exact absurd h1 hac
          · intro hlt
            rw [List.indexOf_cons_self] at hlt
            exact absurd hlt (Nat.not_lt_zero _)
        · have hat : a ∈ t := by
            rcases List.mem_cons.mp ha with h | h
            · exact absurd h hac
            · exact h
          have hbt : b ∈ t := by
            rcases List.mem_cons.mp hb with h | h
            · exact absurd h hbc
            · exact h
          rw [List.indexOf_cons_ne t (fun h => hac h.symm),
            List.indexOf_cons_ne t (fun h => hbc h.symm), Nat.succ_lt_succ_iff]
          constructor
          · intro hsub
            rcases List.sublist_cons_iff.mp hsub with h | ⟨r, hr, _⟩
            · exact (ih hndt hat hbt hab).mp h
            · injection hr with h1 _
              exact absurd h1 hac
          · intro hlt
            exact List.Sublist.cons c ((ih hndt hat hbt hab).mpr hlt)

theorem indexOf_sublist_lt {α : Type _} [DecidableEq α] {F l : List α}
    (hsub : F.Sublist l) (hnd : l.Nodup) {a b : α} (ha : a ∈ F) (hb : b ∈ F)
    (hne : a ≠ b) (h : List.indexOf a F < List.indexOf b F) :
    List.indexOf a l < List.indexOf b l := by
  have hndF : F.Nodup := hnd.sublist hsub
  have h1 := (pair_sublist_iff_indexOf hndF ha hb hne).mpr h
  exact (pair_sublist_iff_indexOf hnd (hsub.subset ha) (hsub.subset hb) hne).mp
    (h1.trans hsub)

/-- A stable descending mergeSort by a numeric key is pairwise sorted AND
preserves the input order on key ties. -/
theorem mergeSort_pairwise_key_stable {α : Type _} [DecidableEq α] (key : α → ℚ)
    (l : List α) (hnd : l.Nodup) :
    (l.mergeSort (fun a b => decide (key b ≤ key a))).Pairwise
      (fun a b => key b ≤ key a ∧
        (key a = key b → List.indexOf a l < List.indexOf b l)) := by
  have htrans : ∀ a b c : α, (fun a b => decide (key b ≤ key a)) a b = true →
      (fun a b => decide (key b ≤ key a)) b c = true →
      (fun a b => decide (key b ≤ key a)) a c = true := by
    intro a b c h1 h2
    simp only [decide_eq_true_eq] at *
    exact le_trans h2 h1
  have htotal : ∀ a b : α, ((fun a b => decide (key b ≤ key a)) a b
      || (fun a b => decide (key b ≤ key a)) b a) = true := by
    intro a b
    simp only [Bool.or_eq_true, decide_eq_true_eq]
    exact le_total (key b) (key a)
  have hperm := List.mergeSort_perm l (fun a b => decide (key b ≤ key a))
  have hndS : (l.mergeSort (fun a b => decide (key b ≤ key a))).Nodup :=
    hperm.symm.nodup hnd
  have hsorted := List.sorted_mergeSort htrans htotal l
  have hsorted' : (l.mergeSort (fun a b => decide (key b ≤ key a))).Pairwise
      (fun a b => key b ≤ key a) :=
    hsorted.imp (by intro a b h; simpa using h)
  have hstab : (l.mergeSort (fun a b => decide (key b ≤ key a))).Pairwise
      (fun a b => key a = key b → List.indexOf a l < List.indexOf b l) := by
    rw [List.pairwise_iff_getElem]
    intro i j hi hj hij hkey
    set S := l.mergeSort (fun a b => decide (key b ≤ key a)) with hS
    have hA : S[i] ∈ l := hperm.mem_iff.mp (List.getElem_mem hi)
    have hB : S[j] ∈ l := hperm.mem_iff.mp (List.getElem_mem hj)
    have hne : S[i] ≠ S[j] := by
      intro h
      rw [hndS.getElem_inj_iff] at h
      omega
    rcases Nat.lt_trichotomy (List.indexOf S[i] l) (List.indexOf S[j] l)
      with h | h | h
    · exact h
    · exact absurd ((List.indexOf_inj hA hB).mp h) hne
    · exfalso
      have hsub : [S[j], S[i]].Sublist l :=
        (pair_sublist_iff_indexOf hnd hB hA (Ne.symm hne)).mpr h
      have hpair : [S[j], S[i]].Pairwise
          (fun a b => (fun a b => decide (key b ≤ key a)) a b = true) := by
        simp [List.pairwise_cons, hkey]
      have hsubS : [S[j], S[i]].Sublist S :=
        List.sublist_mergeSort htrans htotal hpair hsub
      have hSij : List.indexOf S[j] S < List.indexOf S[i] S :=
        (pair_sublist_iff_indexOf hndS (List.getElem_mem hj) (List.getElem_mem hi)
          (Ne.symm hne)).mp hsubS
      rw [List.indexOf_getElem hndS j hj, List.indexOf_getElem hndS i hi] at hSij
      omega
  exact hsorted'.and hstab

theorem filterCategory_sublist (category : Option String) (ms : List Market) :
    (filterCategory category ms).Sublist ms := by
  unfold filterCategory
  split
  · exact List.filter_sublist ms
  · exact List.Sublist.refl ms

theorem filterSearch_sublist (search : Option String) (ms : List Market) :
    (filterSearch search ms).Sublist ms := by
  unfold filterSearch
  split
  · exact List.filter_sublist ms
  · exact List.Sublist.refl ms

theorem filteredMarkets_sublist (category search : Option String) :
    (filteredMarkets category search).Sublist MOCK_MARKETS :=
  (filterSearch_sublist search (filterCategory category MOCK_MARKETS)).trans
    (filterCategory_sublist category MOCK_MARKETS)

/-! ## Claim statements as predicates (shared by a theorem and its witness) -/

/-- Shape of the trades response: `min(limit, 20)` records, record `i`
timestamped `now - i*30`, all other fields constant, and `before_ts`
irrelevant. -/
def tradesSpec (mid limit : ℤ) (b : Option ℚ) (now : ℚ) : Prop :=
  ((get_market_trades mid limit b now).length : ℤ) = min limit 20 ∧
  (∀ (i : ℕ) (h : i < (get_market_trades mid limit b now).length),
    ((get_market_trades mid limit b now).get ⟨i, h⟩).timestamp = now - i * 30 ∧
    ((get_market_trades mid limit b now).get ⟨i, h⟩).market_id = mid ∧
    ((get_market_trades mid limit b now).get ⟨i, h⟩).trader = "0xabc123..." ∧
    ((get_market_trades mid limit b now).get ⟨i, h⟩).is_buy_yes = true ∧
    ((get_market_trades mid limit b now).get ⟨i, h⟩).usdc_in = 5000 ∧
    ((get_market_trades mid limit b now).get ⟨i, h⟩).shares_out = 7320.5 ∧
    ((get_market_trades mid limit b now).get ⟨i, h⟩).price_bps = 6840 ∧
    ((get_market_trades mid limit b now).get ⟨i, h⟩).tx_hash = mockTxHash) ∧
  (∀ b1 b2 : Option ℚ,
    get_market_trades mid limit b1 now = get_market_trades mid limit b2 now)

/-- The not-found behavior of `get_market`: an error with status 404 whose
message contains the requested id. -/
def notFoundSpec (mid : ℤ) (c : Cache) (now : ℚ) : Prop :=
  (get_market c now mid).1
    = Except.error ⟨404, "Market " ++ toString mid ++ " not found"⟩ ∧
  ∃ pre post, "Market " ++ toString mid ++ " not found" = pre ++ toString mid ++ post

/-- The pagination identity and the beyond-the-data edge case of
`list_markets_compute`. -/
def paginationSpec (category : Option String) (sort_by : String)
    (page page_size : ℕ) (search : Option String) : Prop :=
  (((list_markets_compute category sort_by page page_size search).markets.length : ℤ)
    = min (page_size : ℤ)
        (max 0 (((list_markets_compute category sort_by page page_size search).total_count : ℤ)
          - ((page : ℤ) - 1) * (page_size : ℤ)))) ∧
  ((list_markets_compute category sort_by page page_size search).total_count
      ≤ (page - 1) * page_size →
    (list_markets_compute category sort_by page page_size search).markets = [])

/-- The shape claimed for a generated candle list starting at price `start`:
`limit` candles, timestamps `now - i*step` for `i` from `limit` down to 1,
opens chained to the previous close, closes clamped moves by a draw in
[-200,200], highs and lows offset by draws in [0,100], volumes in
[10000,200000]. -/
def candleSpec (now step : ℤ) (limit : ℕ) (start : ℤ) (C : List Candle) : Prop :=
  C.length = limit ∧
  (∀ (j : ℕ) (h : j < C.length), (C[j]).time = now - ((limit - j : ℕ) : ℤ) * step) ∧
  (∀ h : 0 < C.length, (C[0]).open_ = start) ∧
  (∀ (j : ℕ) (h1 : j < C.length) (h2 : j + 1 < C.length),
    (C[j+1]).open_ = (C[j]).close) ∧
  (∀ (j : ℕ) (h : j < C.length), ∃ d : ℤ, -200 ≤ d ∧ d ≤ 200 ∧
    (C[j]).close = max 100 (min 9900 ((C[j]).open_ + d))) ∧
  (∀ (j : ℕ) (h : j < C.length), ∃ u : ℤ, 0 ≤ u ∧ u ≤ 100 ∧
    (C[j]).high = max (C[j]).open_ (C[j]).close + u) ∧
  (∀ (j : ℕ) (h : j < C.length), ∃ u : ℤ, 0 ≤ u ∧ u ≤ 100 ∧
    (C[j]).low = min (C[j]).open_ (C[j]).close - u) ∧
  (∀ (j : ℕ) (h : j < C.length),
    10000 ≤ (C[j]).volume ∧ (C[j]).volume ≤ 200000)

/-- The ordering claimed for a returned page `M`: descending in the selected
key, and on key ties the market earlier in the seed list comes first. -/
def sortSpec (sort_by : String) (M : List Market) : Prop :=
  M.Pairwise (fun A B => sortKey sort_by B ≤ sortKey sort_by A ∧
    (sortKey sort_by A = sortKey sort_by B →
      List.indexOf A MOCK_MARKETS < List.indexOf B MOCK_MARKETS))

/-! ## Claim theorems -/

/-- C1 (code evaluation): at a request carrying an explicit `image_url` and
no `image_ipfs_hash`, the composed image_url of the record is empty, not the
explicit URL: the Python conditional expression binds looser than `or`, so
without an `image_ipfs_hash` the whole expression collapses to `""`. The
other three cases of the claimed resolution do hold and are listed too. -/
theorem composed_image_url_drops_explicit_url :
    composed_image_url
      ⟨"q", "d", "CRYPTO", Option.none, some "https://example.com/pic.png",
        [], Option.none, "r"⟩ = "" ∧
    "" ≠ "https://example.com/pic.png" ∧
    composed_image_url
      ⟨"q", "d", "CRYPTO", some "QmXYZ", some "https://example.com/pic.png",
        [], Option.none, "r"⟩ = "https://example.com/pic.png" ∧
    composed_image_url
      ⟨"q", "d", "CRYPTO", some "QmXYZ", Option.none, [], Option.none, "r"⟩
      = IPFS_GATEWAY ++ "QmXYZ" ∧
    (composed_meta 0
      ⟨"q", "d", "CRYPTO", Option.none, some "https://example.com/pic.png",
        [], Option.none, "r"⟩).image_url = "" := by
  refine ⟨rfl, ?_, rfl, rfl, rfl⟩
  decide

/-- C2: a value set at time `t` is returned unchanged by a lookup strictly
less than `CACHE_TTL_SECONDS` later, and reported absent (`None`) once the
TTL has elapsed. -/
theorem cache_roundtrip_ttl (c : Cache) (k : String) (v : Val) (t now : ℚ) :
    (now - t < CACHE_TTL_SECONDS →
      cache_get (cache_set c k v t) k now = v) ∧
    (CACHE_TTL_SECONDS ≤ now - t →
      cache_get (cache_set c k v t) k now = Val.none) := by
  constructor <;> intro h
  · simp [cache_get, cache_set, h]
  · simp [cache_get, cache_set, not_lt.mpr h]

/-- C2 witness: a concrete round trip at ages 59 and 60 seconds. -/
theorem cache_roundtrip_ttl_witness :
    cache_get (cache_set emptyCache "k" (Val.vmarkets []) 0) "k" 59
      = Val.vmarkets [] ∧
    cache_get (cache_set emptyCache "k" (Val.vmarkets []) 0) "k" 60
      = Val.none :=
  ⟨(cache_roundtrip_ttl emptyCache "k" (Val.vmarkets []) 0 59).1
      (by norm_num [CACHE_TTL_SECONDS]),
   (cache_roundtrip_ttl emptyCache "k" (Val.vmarkets []) 0 60).2
      (by norm_num [CACHE_TTL_SECONDS])⟩

/-- C7: two price-history calls with the same market id, interval and limit
agree on every candle field except `time`: with the per-call seeding the
draw sequence is a function of the seed alone, so only the wall clock (the
`now` argument) can differ between the calls. -/
theorem price_history_reproducible (randI : ℤ → ℕ → ℤ → ℤ → ℤ)
    (uniF : ℤ → ℕ → ℚ → ℚ → ℚ) (mid : ℤ) (interval : String) (limit : ℕ)
    (now1 now2 : ℤ) :
    (get_price_history randI uniF mid interval limit now1).candles.map dropTime
      = (get_price_history randI uniF mid interval limit now2).candles.map dropTime :=
  genCandles_map_dropTime randI uniF mid (intervalStep interval) now1 now2 limit 5000 0

/-- C9: the trades response has exactly `min(limit, 20)` records with the
stated timestamps and constant fields, independently of `before_ts`. -/
theorem trades_shape (mid limit : ℤ) (b : Option ℚ) (now : ℚ)
    (h1 : 1 ≤ limit) (h2 : limit ≤ 500) : tradesSpec mid limit b now := by
  refine ⟨?_, ?_, fun b1 b2 => rfl⟩
  · have hnn : (0 : ℤ) ≤ min limit 20 := le_min (by omega) (by norm_num)
    simp only [get_market_trades, List.length_map, List.length_range]
    exact Int.toNat_of_nonneg hnn
  · intro i h
    simp [get_market_trades, List.get_eq_getElem, List.getElem_map,
      List.getElem_range]

/-- C9 witness: the trades shape at `market_id = 1`, `limit = 5`. -/
theorem trades_shape_witness : tradesSpec 1 5 Option.none 0 :=
  trades_shape 1 5 Option.none 0 (by decide) (by decide)

/-- C10: a stored `None` is returned as the same `None` that signals a miss
on a never-set (or expired) key, and a handler guarding on truthiness of the
cached value (here `list_markets`) recomputes whenever the cached value is
falsy, so its response is the one a fresh cache would give. -/
theorem cache_none_indistinguishable (c : Cache) (k : String) (t now : ℚ)
    (category : Option String) (sort_by : String) (page page_size : ℕ)
    (search : Option String) :
    cache_get (cache_set c k Val.none t) k now = Val.none ∧
    cache_get emptyCache k now = Val.none ∧
    (pyTruthy (cache_get c (marketsKey category sort_by page page_size search) now)
        = false →
      (list_markets c now category sort_by page page_size search).1
        = (list_markets emptyCache now category sort_by page page_size search).1) := by
  refine ⟨?_, rfl, fun h => ?_⟩
  · simp [cache_get, cache_set]
  · simp only [list_markets]
    rw [h]
    simp [cache_get, emptyCache, pyTruthy]

/-- C10 witness: a cache holding an unrelated key and a stored `None` both
behave as a fresh cache. -/
theorem cache_none_indistinguishable_witness :
    cache_get (cache_set (cache_set emptyCache "other" (Val.vmarkets MOCK_MARKETS) 0)
        "k" Val.none 0) "k" 0 = Val.none ∧
    cache_get emptyCache "k" 0 = Val.none ∧
    (list_markets (cache_set emptyCache "other" (Val.vmarkets MOCK_MARKETS) 0) 0
        Option.none "volume_24h" 1 20 Option.none).1
      = (list_markets emptyCache 0 Option.none "volume_24h" 1 20 Option.none).1 := by
  have h := cache_none_indistinguishable
    (cache_set emptyCache "other" (Val.vmarkets MOCK_MARKETS) 0) "k" 0 0
    Option.none "volume_24h" 1 20 Option.none
  exact ⟨h.1, h.2.1, h.2.2 (by decide)⟩

/-- C6: for an id absent from the seed list, `get_market` returns a 404
error whose message contains the id (a value, not a crash); for a present
id, the full seed record is returned. -/
theorem get_market_404_or_record (mid : ℤ) (c : Cache) (now : ℚ)
    (hmiss : pyTruthy (cache_get c ("market:" ++ toString mid) now) = false) :
    ((∀ m ∈ MOCK_MARKETS, m.market_id ≠ mid) → notFoundSpec mid c now) ∧
    (∀ m ∈ MOCK_MARKETS, m.market_id = mid →
      (get_market c now mid).1 = Except.ok (Val.vmarket m)) := by
  constructor
  · intro h
    have hf : MOCK_MARKETS.find? (fun m => m.market_id == mid) = Option.none :=
      List.find?_eq_none.mpr (fun x hx => by simpa using h x hx)
    refine ⟨?_, "Market ", " not found", rfl⟩
    simp only [get_market]
    rw [hmiss, hf]
    rfl
  · intro m hm he
    subst he
    fin_cases hm <;> (simp only [get_market]; rw [hmiss]; rfl)

/-- C6 witness: id 999 is absent and yields the 404 error with 999 in the
message. -/
theorem get_market_404_witness : notFoundSpec 999 emptyCache 0 :=
  (get_market_404_or_record 999 emptyCache 0 rfl).1 (by decide)

/-- C3: on a cache miss `list_markets` returns the computed result, whose
`total_count` is the number of seed markets passing the category and search
filters, for every page and page size. -/
theorem total_count_matches_filter (category : Option String) (sort_by : String)
    (page page_size : ℕ) (search : Option String) (c : Cache) (now : ℚ)
    (hp : 1 ≤ page) (hps1 : 1 ≤ page_size) (hps2 : page_size ≤ 100)
    (hmiss : pyTruthy
      (cache_get c (marketsKey category sort_by page page_size search) now) = false) :
    (list_markets c now category sort_by page page_size search).1
      = Val.vsearch (list_markets_compute category sort_by page page_size search) ∧
    (list_markets_compute category sort_by page page_size search).total_count
      = (filteredMarkets category search).length ∧
    ∀ page2 page_size2 : ℕ,
      (list_markets_compute category sort_by page2 page_size2 search).total_count
        = (list_markets_compute category sort_by page page_size search).total_count := by
  refine ⟨?_, ?_, fun page2 page_size2 => ?_⟩
  · simp only [list_markets]
    rw [hmiss]
    rfl
  · simp [list_markets_compute, sortedMarkets, List.length_mergeSort]
  · simp [list_markets_compute]

/-- C3 witness: the example request of the spec, `category=CRYPTO`,
`sort_by=num_traders`, `page=1`, `page_size=1` on a fresh cache. -/
theorem total_count_matches_filter_witness :
    (list_markets emptyCache 0 (some "CRYPTO") "num_traders" 1 1 Option.none).1
      = Val.vsearch (list_markets_compute (some "CRYPTO") "num_traders" 1 1 Option.none) ∧
    (list_markets_compute (some "CRYPTO") "num_traders" 1 1 Option.none).total_count
      = (filteredMarkets (some "CRYPTO") Option.none).length ∧
    ∀ page2 page_size2 : ℕ,
      (list_markets_compute (some "CRYPTO") "num_traders" page2 page_size2 Option.none).total_count
        = (list_markets_compute (some "CRYPTO") "num_traders" 1 1 Option.none).total_count :=
  total_count_matches_filter (some "CRYPTO") "num_traders" 1 1 Option.none
    emptyCache 0 (by decide) (by decide) (by decide) rfl

/-- C4: the returned page holds `min(page_size, max(0, total_count -
(page-1)*page_size))` markets; a page beyond the data is empty. -/
theorem pagination_length (category : Option String) (sort_by : String)
    (page page_size : ℕ) (search : Option String) (c : Cache) (now : ℚ)
    (hp : 1 ≤ page) (hps1 : 1 ≤ page_size) (hps2 : page_size ≤ 100)
    (hmiss : pyTruthy
      (cache_get c (marketsKey category sort_by page page_size search) now) = false) :
    (list_markets c now category sort_by page page_size search).1
      = Val.vsearch (list_markets_compute category sort_by page page_size search) ∧
    paginationSpec category sort_by page page_size search := by
  have hml : (list_markets_compute category sort_by page page_size search).markets.length
      = min page_size
          ((sortedMarkets category search sort_by).length - (page - 1) * page_size) := by
    simp [list_markets_compute, List.length_take, List.length_drop]
  have htc : (list_markets_compute category sort_by page page_size search).total_count
      = (sortedMarkets category search sort_by).length := rfl
  refine ⟨?_, ?_, fun hle => ?_⟩
  · simp only [list_markets]
    rw [hmiss]
    rfl
  · rw [hml, htc]
    have hcast : (((page - 1) * page_size : ℕ) : ℤ)
        = ((page : ℤ) - 1) * (page_size : ℤ) := by
      rw [Nat.cast_mul, Nat.cast_sub hp, Nat.cast_one]
    rw [← hcast]
    omega
  · rw [htc] at hle
    refine List.length_eq_zero.mp ?_
    rw [hml]
    omega

/-- C4 witness: page 5 of the single CRYPTO market is empty while its
`total_count` formula still holds. -/
theorem pagination_length_witness :
    (list_markets emptyCache 0 (some "CRYPTO") "volume_24h" 5 20 Option.none).1
      = Val.vsearch (list_markets_compute (some "CRYPTO") "volume_24h" 5 20 Option.none) ∧
    paginationSpec (some "CRYPTO") "volume_24h" 5 20 Option.none :=
  pagination_length (some "CRYPTO") "volume_24h" 5 20 Option.none emptyCache 0
    (by decide) (by decide) (by decide) rfl

theorem genCandles_spec (randI : ℤ → ℕ → ℤ → ℤ → ℤ) (uniF : ℤ → ℕ → ℚ → ℚ → ℚ)
    (sd now step : ℤ)
    (hr : ∀ s k a b, a ≤ b → a ≤ randI s k a b ∧ randI s k a b ≤ b)
    (hu : ∀ s k a b, a ≤ b → a ≤ uniF s k a b ∧ uniF s k a b ≤ b) :
    ∀ (i : ℕ) (price : ℤ) (ctr : ℕ),
      candleSpec now step i price (genCandles randI uniF sd now step i price ctr) := by
  intro i
  induction i with
  | zero =>
      intro price ctr
      exact ⟨rfl,
        fun j h => absurd h (by simp [genCandles]),
        fun h => absurd h (by simp [genCandles]),
        fun j h1 h2 => absurd h2 (by simp [genCandles]),
        fun j h => absurd h (by simp [genCandles]),
        fun j h => absurd h (by simp [genCandles]),
        fun j h => absurd h (by simp [genCandles]),
        fun j h => absurd h (by simp [genCandles])⟩
  | succ n ih =>
      intro price ctr
      obtain ⟨hl, ht, ho, hc, hcl, hhi, hlo, hv⟩ :=
        ih (max 100 (min 9900 (price + randI sd ctr (-200) 200))) (ctr + 4)
      refine ⟨?_, ?_, ?_, ?_, ?_, ?_, ?_, ?_⟩
      · simp [genCandles, hl]
      · intro j h
        cases j with
        | zero =>
            simp only [genCandles, List.getElem_cons_zero, Nat.sub_zero]
            push_cast
            ring
        | succ j =>
            have hj : j < n := by
              have := h; simp only [genCandles, List.length_cons, hl] at this; omega
            have := ht j (by omega)
            simp only [genCandles, List.getElem_cons_succ]
            rw [this]
            have hnj : n + 1 - (j + 1) = n - j := by omega
            rw [hnj]
      · intro h
        simp [genCandles]
      · intro j h1 h2
        cases j with
        | zero =>
            have h0 : 0 < n := by
              have := h2; simp only [genCandles, List.length_cons, hl] at this; omega
            have := ho (by omega)
            simp only [genCandles, List.getElem_cons_succ, List.getElem_cons_zero]
            rw [this]
        | succ j =>
            have hj : j + 1 < n := by
              have := h2; simp only [genCandles, List.length_cons, hl] at this; omega
            have := hc j (by omega) (by omega)
            simp only [genCandles, List.getElem_cons_succ]
            exact this
      · intro j h
        cases j with
        | zero =>
            refine ⟨randI sd ctr (-200) 200, ?_, ?_, ?_⟩
            · exact (hr sd ctr (-200) 200 (by norm_num)).1
            · exact (hr sd ctr (-200) 200 (by norm_num)).2
            · simp [genCandles]
        | succ j =>
            have hj : j < n := by
              have := h; simp only [genCandles, List.length_cons, hl] at this; omega
            have := hcl j (by omega)
            simpa only [genCandles, List.getElem_cons_succ] using this
      · intro j h
        cases j with
        | zero =>
            refine ⟨randI sd (ctr + 1) 0 100, ?_, ?_, ?_⟩
            · exact (hr sd (ctr + 1) 0 100 (by norm_num)).1
            · exact (hr sd (ctr + 1) 0 100 (by norm_num)).2
            · simp [genCandles]
        | succ j =>
            have hj : j < n := by
              have := h; simp only [genCandles, List.length_cons, hl] at this; omega
            have := hhi j (by omega)
            simpa only [genCandles, List.getElem_cons_succ] using this
      · intro j h
        cases j with
        | zero =>
            refine ⟨randI sd (ctr + 2) 0 100, ?_, ?_, ?_⟩
            · exact (hr sd (ctr + 2) 0 100 (by norm_num)).1
            · exact (hr sd (ctr + 2) 0 100 (by norm_num)).2
            · simp [genCandles]
        | succ j =>
            have hj : j < n := by
              have := h; simp only [genCandles, List.length_cons, hl] at this; omega
            have := hlo j (by omega)
            simpa only [genCandles, List.getElem_cons_succ] using this
      · intro j h
        cases j with
        | zero =>
            constructor
            · exact (hu sd (ctr + 3) 10000 200000 (by norm_num)).1
            · exact (hu sd (ctr + 3) 10000 200000 (by norm_num)).2
        | succ j =>
            have hj : j < n := by
              have := h; simp only [genCandles, List.length_cons, hl] at this; omega
            have := hv j (by omega)
            simpa only [genCandles, List.getElem_cons_succ] using this

/-- C8: every price-history response consists of candles generated from the
starting price 5000 with the claimed clamped random walk, timestamps
`now - i*step` oldest-first, and the `interval` table falling back to the
1h step 3600 on unrecognized values. -/
theorem price_history_generation (randI : ℤ → ℕ → ℤ → ℤ → ℤ)
    (uniF : ℤ → ℕ → ℚ → ℚ → ℚ) (mid : ℤ) (interval : String) (limit : ℕ)
    (now : ℤ)
    (hr : ∀ s k a b, a ≤ b → a ≤ randI s k a b ∧ randI s k a b ≤ b)
    (hu : ∀ s k a b, a ≤ b → a ≤ uniF s k a b ∧ uniF s k a b ≤ b) :
    candleSpec now (intervalStep interval) limit 5000
      (get_price_history randI uniF mid interval limit now).candles ∧
    (∀ s : String, s ∉ (["1m", "5m", "15m", "1h", "4h", "1d"] : List String) →
      intervalStep s = 3600) ∧
    intervalStep "1h" = 3600 := by
  refine ⟨genCandles_spec randI uniF mid now (intervalStep interval) hr hu limit 5000 0,
    fun s hs => ?_, rfl⟩
  simp only [List.mem_cons, List.mem_singleton, not_or] at hs
  obtain ⟨h1, h2, h3, h4, h5, h6⟩ := hs
  simp [intervalStep, h1, h2, h3, h4, h5, h6]

/-- C8 witness: the candle spec at market 1, interval `1h`, limit 3, with the
degenerate lower-endpoint draw oracles. -/
theorem price_history_generation_witness :
    candleSpec 0 (intervalStep "1h") 3 5000
      (get_price_history (fun _ _ a _ => a) (fun _ _ a _ => a) 1 "1h" 3 0).candles ∧
    (∀ s : String, s ∉ (["1m", "5m", "15m", "1h", "4h", "1d"] : List String) →
      intervalStep s = 3600) ∧
    intervalStep "1h" = 3600 :=
  price_history_generation (fun _ _ a _ => a) (fun _ _ a _ => a) 1 "1h" 3 0
    (fun _ _ _ _ h => ⟨le_refl _, h⟩) (fun _ _ _ _ h => ⟨le_refl _, h⟩)

/-- C5: every returned page is sorted descending in the field selected by
`sort_by`, ties keep the seed-list order (the sort is stable), and an
unrecognized `sort_by` behaves exactly like `volume_24h`. -/
theorem markets_sorted_descending_stable (category : Option String)
    (sort_by : String) (page page_size : ℕ) (search : Option String)
    (c : Cache) (now : ℚ)
    (hp : 1 ≤ page) (hps1 : 1 ≤ page_size) (hps2 : page_size ≤ 100)
    (hmiss : pyTruthy
      (cache_get c (marketsKey category sort_by page page_size search) now) = false) :
    (list_markets c now category sort_by page page_size search).1
      = Val.vsearch (list_markets_compute category sort_by page page_size search) ∧
    sortSpec sort_by
      (list_markets_compute category sort_by page page_size search).markets ∧
    (∀ s : String, s ≠ "volume_24h" → s ≠ "total_volume" → s ≠ "num_traders" →
      s ≠ "yes_price" →
      list_markets_compute category s page page_size search
        = list_markets_compute category "volume_24h" page page_size search) := by
  refine ⟨?_, ?_, fun s h1 h2 h3 h4 => ?_⟩
  · simp only [list_markets]
    rw [hmiss]
    rfl
  · have hndF : (filteredMarkets category search).Nodup :=
      mock_markets_nodup.sublist (filteredMarkets_sublist category search)
    have hpair := mergeSort_pairwise_key_stable (sortKey sort_by)
      (filteredMarkets category search) hndF
    have hperm := List.mergeSort_perm (filteredMarkets category search)
      (sortLe sort_by)
    have hpair2 : (sortedMarkets category search sort_by).Pairwise
        (fun A B => sortKey sort_by B ≤ sortKey sort_by A ∧
          (sortKey sort_by A = sortKey sort_by B →
            List.indexOf A MOCK_MARKETS < List.indexOf B MOCK_MARKETS)) := by
      refine List.Pairwise.imp_of_mem ?_ hpair
      intro A B hA hB hRel
      refine ⟨hRel.1, fun hk => ?_⟩
      have hA' : A ∈ filteredMarkets category search := hperm.subset hA
      have hB' : B ∈ filteredMarkets category search := hperm.subset hB
      have hne : A ≠ B := by
        intro he
        exact absurd (he ▸ hRel.2 hk) (lt_irrefl _)
      exact indexOf_sublist_lt (filteredMarkets_sublist category search)
        mock_markets_nodup hA' hB' hne (hRel.2 hk)
    have hsl : (list_markets_compute category sort_by page page_size search).markets.Sublist
        (sortedMarkets category search sort_by) :=
      (List.take_sublist _ _).trans (List.drop_sublist _ _)
    exact List.Pairwise.sublist hsl hpair2
  · have hkey : sortKey s = sortKey "volume_24h" := by
      funext m
      simp [sortKey, h1, h2, h3, h4]
    have hle : sortLe s = sortLe "volume_24h" := by
      funext a b
      simp [sortLe, hkey]
    simp [list_markets_compute, sortedMarkets, hle]

/-- C5 witness: the default listing of the full seed set on a fresh cache. -/
theorem markets_sorted_descending_stable_witness :
    (list_markets emptyCache 0 Option.none "yes_price" 1 20 Option.none).1
      = Val.vsearch (list_markets_compute Option.none "yes_price" 1 20 Option.none) ∧
    sortSpec "yes_price"
      (list_markets_compute Option.none "yes_price" 1 20 Option.none).markets ∧
    (∀ s : String, s ≠ "volume_24h" → s ≠ "total_volume" → s ≠ "num_traders" →
      s ≠ "yes_price" →
      list_markets_compute Option.none s 1 20 Option.none
        = list_markets_compute Option.none "volume_24h" 1 20 Option.none) :=
  markets_sorted_descending_stable Option.none "yes_price" 1 20 Option.none
    emptyCache 0 (by decide) (by decide) (by decide) rfl

end VantagePoint
